import Mathlib

/-!
Shallow embedding of the `list_cursors` repository (`src/lib.rs`): a
doubly-linked list (`LinkedList`) with a read-only `Cursor` and a mutating
`CursorMut`.

Modelling choices.  In the Rust source every structural operation performs
pointer surgery on the actual node chain, while `LinkedList.len` and
`CursorMut.current_len` are separately maintained counters.  The pointer
surgery always keeps the chain a proper doubly-linked sequence (all link
updates use the real `next`/`prev` pointers), so the chain is modelled as a
`List T` in forward order (`elems`), and a node pointer as its index in the
chain.  The counters `len` and `current_len` are kept as separate fields and
updated exactly as the source updates them, so that any divergence between
the counters and the chain that the source can produce is reproduced by the
model.  `head`/`tail` pointers are always the chain endpoints in the source,
hence derived (`headIdx`/`tailIdx`).  `usize` arithmetic is `Nat` arithmetic;
the only subtractions performed (`total_len - split_len`, `current_len - 1`)
cannot underflow in the states reached in the theorems below.
-/

/-- The model of `LinkedList<T>`: the chain of nodes reachable from `head`
in forward order, plus the `len` counter field (which the source maintains
separately from the chain). -/
structure LinkedList (T : Type) where
  elems : List T
  len : Nat
deriving DecidableEq, Repr

namespace LinkedList

/-- Model of `LinkedList::new()`. -/
def new (T : Type) : LinkedList T := ⟨[], 0⟩

/-- The `head` pointer: index of the first node of the chain, if any. -/
def headIdx {T : Type} (l : LinkedList T) : Option Nat :=
  if l.elems.isEmpty then none else some 0

/-- The `tail` pointer: index of the last node of the chain, if any. -/
def tailIdx {T : Type} (l : LinkedList T) : Option Nat :=
  if l.elems.isEmpty then none else some (l.elems.length - 1)

end LinkedList

/-- The model of `CursorMut<'list, T>`: the borrowed list, the `current`
node pointer (as an index into the chain, `none` = ghost), and the
`current_len` counter. -/
structure CursorMut (T : Type) where
  list : LinkedList T
  current : Option Nat
  current_len : Nat
deriving DecidableEq, Repr

/-- Model of `LinkedList::cursor_mut()`: cursor at the ghost element with
`current_len = 0`. -/
def LinkedList.cursor_mut {T : Type} (l : LinkedList T) : CursorMut T :=
  ⟨l, none, 0⟩

namespace CursorMut

variable {T : Type}

/-- Model of the private `CursorMut::next()`: the node after the cursor
(`list.head` when at ghost, else `current.next`). -/
def next (c : CursorMut T) : Option Nat :=
  match c.current with
  | none => c.list.headIdx
  | some i => if i + 1 < c.list.elems.length then some (i + 1) else none

/-- Model of the private `CursorMut::prev()`: the node before the cursor
(`list.tail` when at ghost, else `current.prev`). -/
def prev (c : CursorMut T) : Option Nat :=
  match c.current with
  | none => c.list.tailIdx
  | some i => if i = 0 then none else some (i - 1)

/-- Model of `CursorMut::move_next()`: `inc_len` (increment `current_len`
modulo `len + 1`), then step `current` to `next()`. -/
def move_next (c : CursorMut T) : CursorMut T :=
  { c with current_len := (c.current_len + 1) % (c.list.len + 1), current := c.next }

/-- Model of `CursorMut::move_prev()`: `dec_len` (add `len` and reduce
modulo `len + 1`), then step `current` to `prev()`. -/
def move_prev (c : CursorMut T) : CursorMut T :=
  { c with current_len := (c.current_len + c.list.len) % (c.list.len + 1), current := c.prev }

/-- Model of `CursorMut::current()`: the element at the cursor, absent at
ghost. -/
def currentElem (c : CursorMut T) : Option T :=
  c.current.bind (fun i => c.list.elems[i]?)

/-- The cyclic position of the cursor: 0 at ghost, `i + 1` at node `i`.
Inserting a node after the cursor inserts at this chain index. -/
def cpos (c : CursorMut T) : Nat :=
  match c.current with
  | none => 0
  | some i => i + 1

/-- Model of `CursorMut::insert(item)`: link a new node between `current`
and `next()` (at chain index `cpos`), increment `len`; cursor pointer and
`current_len` unchanged. -/
def insert (c : CursorMut T) (item : T) : CursorMut T :=
  { c with list := ⟨c.list.elems.insertIdx (cpos c) item, c.list.len + 1⟩ }

/-- Model of `CursorMut::insert_before(item)`: link a new node between
`prev()` and `current` (at ghost this appends after `tail`), increment
`len`, then `inc_len` (with the incremented `len`).  The cursor keeps
pointing at the same node, whose chain index grows by one. -/
def insert_before (c : CursorMut T) (item : T) : CursorMut T :=
  let elems' := match c.current with
    | none => c.list.elems ++ [item]
    | some i => c.list.elems.insertIdx i item
  { list := ⟨elems', c.list.len + 1⟩,
    current := c.current.map (· + 1),
    current_len := (c.current_len + 1) % (c.list.len + 1 + 1) }

/-- Model of `CursorMut::insert_list(other)`: if `other`'s chain is empty
(head and tail pointers both absent) this is a no-op; otherwise splice
`other`'s whole chain between `current` and `next()` and add `other.len`
to the `len` counter.  Cursor pointer and `current_len` unchanged. -/
def insert_list (c : CursorMut T) (other : LinkedList T) : CursorMut T :=
  match other.elems with
  | [] => c
  | _ =>
    { c with list := ⟨c.list.elems.take (cpos c) ++ other.elems ++ c.list.elems.drop (cpos c),
                      c.list.len + other.len⟩ }

/-- Model of `CursorMut::insert_list_before(other)`: if `other`'s chain is
empty this is a no-op; otherwise splice `other`'s chain between `prev()`
and `current` (at ghost: after `tail`), add `other.len` to the `len`
counter, and add `other.len` to `current_len` only when `current_len` is
nonzero.  The cursor keeps pointing at the same node, whose chain index
grows by the length of the spliced chain. -/
def insert_list_before (c : CursorMut T) (other : LinkedList T) : CursorMut T :=
  match other.elems with
  | [] => c
  | _ =>
    let elems' := match c.current with
      | none => c.list.elems ++ other.elems
      | some i => c.list.elems.take i ++ other.elems ++ c.list.elems.drop i
    { list := ⟨elems', c.list.len + other.len⟩,
      current := c.current.map (· + other.elems.length),
      current_len := if c.current_len ≠ 0 then c.current_len + other.len else c.current_len }

/-- Model of `CursorMut::pop()`: if `next()` is absent return `none` and
leave everything unchanged; otherwise unlink the node after the cursor and
return its element, decrement `len`, and reduce `current_len` modulo the
new `len + 1`.  The cursor pointer is unchanged. -/
def pop (c : CursorMut T) : Option T × CursorMut T :=
  match c.next with
  | none => (none, c)
  | some j =>
    (c.list.elems[j]?,
     { c with list := ⟨c.list.elems.eraseIdx j, c.list.len - 1⟩,
              current_len := c.current_len % (c.list.len - 1 + 1) })

/-- Model of `CursorMut::pop_prev()`: if `prev()` is absent return `none`;
otherwise unlink the node before the cursor and return its element,
decrement `len`, and `dec_len` (with the decremented `len`).  The cursor
keeps pointing at the same node, whose chain index drops by one when the
cursor is at a node. -/
def pop_prev (c : CursorMut T) : Option T × CursorMut T :=
  match c.prev with
  | none => (none, c)
  | some j =>
    (c.list.elems[j]?,
     { list := ⟨c.list.elems.eraseIdx j, c.list.len - 1⟩,
       current := c.current.map (· - 1),
       current_len := (c.current_len + (c.list.len - 1)) % (c.list.len - 1 + 1) })

/-- Model of the private `CursorMut::split_at(current, split_len)` with the
cursor's node at chain index `i`: if node `i` has a next node, sever the
chain after node `i`; the retained list keeps the front of the chain with
`len` counter `total_len - (total_len - split_len)` and the returned list
gets the back of the chain with `len` counter `total_len - split_len`.  If
node `i` has no next node, the retained list is untouched and a fresh empty
list is returned.  Result: (retained list, returned list). -/
def split_at (c : CursorMut T) (i split_len : Nat) : LinkedList T × LinkedList T :=
  let total_len := c.list.len
  if i + 1 < c.list.elems.length then
    let new_len := total_len - split_len
    let old_len := total_len - new_len
    (⟨c.list.elems.take (i + 1), old_len⟩, ⟨c.list.elems.drop (i + 1), new_len⟩)
  else
    (c.list, LinkedList.new T)

/-- Model of `CursorMut::split()`: at ghost, the whole list is returned and
the original is replaced by an empty list; at a node, `split_at` with
`split_len = current_len`.  Result: (retained list, returned list). -/
def split (c : CursorMut T) : LinkedList T × LinkedList T :=
  match c.current with
  | none => (LinkedList.new T, c.list)
  | some i => c.split_at i c.current_len

/-- Model of `CursorMut::split_before()`: at ghost, or at a node whose
`prev` is absent (the head node), the whole list is returned and the
original is replaced by an empty list; otherwise `split_at` on the previous
node with `split_len = current_len - 1`. -/
def split_before (c : CursorMut T) : LinkedList T × LinkedList T :=
  match c.current with
  | none => (LinkedList.new T, c.list)
  | some i =>
    if i = 0 then (LinkedList.new T, c.list)
    else c.split_at (i - 1) (c.current_len - 1)

end CursorMut

/-- Model of `FromIterator for LinkedList`: start from a new list and
repeatedly `insert_before` on a ghost-positioned `CursorMut`. -/
def LinkedList.from_iter {T : Type} (S : List T) : LinkedList T :=
  (S.foldl (fun c x => c.insert_before x) (LinkedList.new T).cursor_mut).list

/-- The model of the read-only `Cursor<'list, T>`: the borrowed list and the
`current` node pointer (index into the chain, `none` = ghost). -/
structure Cursor (T : Type) where
  list : LinkedList T
  current : Option Nat
deriving DecidableEq, Repr

/-- Model of `LinkedList::cursor()`: read-only cursor at the ghost element. -/
def LinkedList.cursor {T : Type} (l : LinkedList T) : Cursor T :=
  ⟨l, none⟩

namespace Cursor

variable {T : Type}

/-- Model of the private `Cursor::next()`. -/
def next (c : Cursor T) : Option Nat :=
  match c.current with
  | none => c.list.headIdx
  | some i => if i + 1 < c.list.elems.length then some (i + 1) else none

/-- Model of the private `Cursor::prev()`. -/
def prev (c : Cursor T) : Option Nat :=
  match c.current with
  | none => c.list.tailIdx
  | some i => if i = 0 then none else some (i - 1)

/-- Model of `Cursor::move_next()`. -/
def move_next (c : Cursor T) : Cursor T := { c with current := c.next }

/-- Model of `Cursor::move_prev()`. -/
def move_prev (c : Cursor T) : Cursor T := { c with current := c.prev }

/-- Model of `Cursor::current()`. -/
def currentElem (c : Cursor T) : Option T :=
  c.current.bind (fun i => c.list.elems[i]?)

/-- Model of `Cursor::peek()`. -/
def peek (c : Cursor T) : Option T :=
  c.next.bind (fun i => c.list.elems[i]?)

/-- Model of `Cursor::peek_before()`. -/
def peek_before (c : Cursor T) : Option T :=
  c.prev.bind (fun i => c.list.elems[i]?)

end Cursor

/-! ## Cursor states reachable by moves alone, and their invariant -/

namespace CursorMut

variable {T : Type}

/-- Consistency of a mutable cursor state: the `len` counter matches the
chain, `current_len` equals the cyclic position, and the `current` pointer
is a node of the chain when present. -/
def goodCursor (c : CursorMut T) : Prop :=
  c.list.len = c.list.elems.length ∧
  c.current_len = c.cpos ∧
  ∀ i, c.current = some i → i < c.list.elems.length

/-- Cursor states obtained from a fresh `cursor_mut` on a length-consistent
list by any sequence of `move_next`/`move_prev`. -/
inductive MovesReached : CursorMut T → Prop where
  | base (l : LinkedList T) (h : l.len = l.elems.length) : MovesReached l.cursor_mut
  | step_next {c : CursorMut T} (h : MovesReached c) : MovesReached c.move_next
  | step_prev {c : CursorMut T} (h : MovesReached c) : MovesReached c.move_prev

theorem good_init (l : LinkedList T) (h : l.len = l.elems.length) :
    goodCursor l.cursor_mut := by
  refine ⟨h, rfl, ?_⟩
  intro i hi
  simp [LinkedList.cursor_mut] at hi

theorem good_move_next {c : CursorMut T} (h : goodCursor c) : goodCursor c.move_next := by
  obtain ⟨⟨elems, len⟩, cur, clen⟩ := c
  obtain ⟨h1, h2, h3⟩ := h
  simp only at h1
  cases cur with
  | none =>
    have hcl : clen = 0 := by simpa [cpos] using h2
    subst hcl h1
    cases elems with
    | nil => exact ⟨rfl, by simp [move_next, next, LinkedList.headIdx, cpos], by
        intro i hi
        simp [move_next, next, LinkedList.headIdx] at hi⟩
    | cons x xs =>
      refine ⟨rfl, ?_, ?_⟩
      · simp only [move_next, next, LinkedList.headIdx, List.isEmpty_cons, Bool.false_eq_true,
          if_false, cpos]
        rw [Nat.mod_eq_of_lt (by simp)]
      · intro i hi
        simp only [move_next, next, LinkedList.headIdx, List.isEmpty_cons, Bool.false_eq_true,
          if_false, Option.some.injEq] at hi
        simp [move_next, ← hi]
  | some i =>
    have hiv : i < elems.length := h3 i rfl
    have hcl : clen = i + 1 := by simpa [cpos] using h2
    subst hcl h1
    by_cases hn : i + 1 < elems.length
    · refine ⟨rfl, ?_, ?_⟩
      · simp only [move_next, next, hn, if_true, cpos]
        rw [Nat.mod_eq_of_lt (by omega)]
      · intro j hj
        simp only [move_next, next, hn, if_true, Option.some.injEq] at hj
        simp only [move_next]
        omega
    · have hieq : i + 1 = elems.length := by omega
      refine ⟨rfl, ?_, ?_⟩
      · simp only [move_next, next, hn, if_false, cpos]
        rw [← hieq]
        exact Nat.mod_self _
      · intro j hj
        simp [move_next, next, hn] at hj

theorem good_move_prev {c : CursorMut T} (h : goodCursor c) : goodCursor c.move_prev := by
  obtain ⟨⟨elems, len⟩, cur, clen⟩ := c
  obtain ⟨h1, h2, h3⟩ := h
  simp only at h1
  cases cur with
  | none =>
    have hcl : clen = 0 := by simpa [cpos] using h2
    subst hcl h1
    cases elems with
    | nil => exact ⟨rfl, by simp [move_prev, prev, LinkedList.tailIdx, cpos], by
        intro i hi
        simp [move_prev, prev, LinkedList.tailIdx] at hi⟩
    | cons x xs =>
      refine ⟨rfl, ?_, ?_⟩
      · simp only [move_prev, prev, LinkedList.tailIdx, List.isEmpty_cons, Bool.false_eq_true,
          if_false, cpos, List.length_cons]
        rw [Nat.zero_add, Nat.mod_eq_of_lt (by omega)]
        omega
      · intro j hj
        simp only [move_prev, prev, LinkedList.tailIdx, List.isEmpty_cons, Bool.false_eq_true,
          if_false, Option.some.injEq, List.length_cons] at hj
        simp only [move_prev, List.length_cons]
        omega
  | some i =>
    have hiv : i < elems.length := h3 i rfl
    have hcl : clen = i + 1 := by simpa [cpos] using h2
    subst hcl h1
    by_cases h0 : i = 0
    · subst h0
      refine ⟨rfl, ?_, ?_⟩
      · simp only [move_prev, prev, if_true, cpos]
        have h' : 0 + 1 + elems.length = elems.length + 1 := by omega
        rw [h']
        exact Nat.mod_self _
      · intro j hj
        simp [move_prev, prev] at hj
    · refine ⟨rfl, ?_, ?_⟩
      · simp only [move_prev, prev, h0, if_false, cpos]
        have hrw : i + 1 + elems.length = i + (elems.length + 1) := by omega
        rw [hrw, Nat.add_mod_right, Nat.mod_eq_of_lt (by omega)]
        omega
      · intro j hj
        simp only [move_prev, prev, h0, if_false, Option.some.injEq] at hj
        simp only [move_prev]
        omega

theorem reached_good {c : CursorMut T} (h : MovesReached c) : goodCursor c := by
  induction h with
  | base l hl => exact good_init l hl
  | step_next _ ih => exact good_move_next ih
  | step_prev _ ih => exact good_move_prev ih

/-- Characterization of `split` on a consistent cursor positioned at node
`i`: the retained list is the first `i + 1` elements with `len = i + 1`,
and the returned list is the rest with the matching `len`. -/
theorem split_at_node {c : CursorMut T} (h : goodCursor c) (i : Nat)
    (hc : c.current = some i) :
    c.split = (⟨c.list.elems.take (i + 1), i + 1⟩,
               ⟨c.list.elems.drop (i + 1), c.list.elems.length - (i + 1)⟩) := by
  obtain ⟨⟨elems, len⟩, cur, clen⟩ := c
  obtain ⟨h1, h2, h3⟩ := h
  simp only at h1 hc ⊢
  subst hc
  have hiv : i < elems.length := h3 i rfl
  have hcl : clen = i + 1 := by simpa [cpos] using h2
  subst hcl h1
  simp only [split, split_at]
  by_cases hn : i + 1 < elems.length
  · rw [if_pos hn]
    have hlen : elems.length - (elems.length - (i + 1)) = i + 1 := by omega
    rw [hlen]
  · have hieq : i + 1 = elems.length := by omega
    simp only [hn, if_false, LinkedList.new, Prod.mk.injEq, LinkedList.mk.injEq]
    refine ⟨⟨?_, by omega⟩, ?_, by omega⟩
    · rw [hieq, List.take_length]
    · rw [hieq, List.drop_length]

theorem split_at_ghost {c : CursorMut T} (hc : c.current = none) :
    c.split = (LinkedList.new T, c.list) := by
  simp [split, hc]

end CursorMut

/-! ## Building a list from a sequence, and iterated operations -/

namespace CursorMut

variable {T : Type}

theorem insert_before_ghost_state (P : List T) (x : T) :
    (⟨⟨P, P.length⟩, none, P.length⟩ : CursorMut T).insert_before x =
      ⟨⟨P ++ [x], (P ++ [x]).length⟩, none, (P ++ [x]).length⟩ := by
  have hm : (P.length + 1) % (P.length + 1 + 1) = P.length + 1 :=
    Nat.mod_eq_of_lt (by omega)
  simp [insert_before, hm]

theorem from_iter_fold (S : List T) :
    ∀ P : List T,
    S.foldl (fun (c : CursorMut T) x => c.insert_before x) ⟨⟨P, P.length⟩, none, P.length⟩ =
      ⟨⟨P ++ S, (P ++ S).length⟩, none, (P ++ S).length⟩ := by
  induction S with
  | nil => intro P; simp
  | cons x xs ih =>
    intro P
    rw [List.foldl_cons, insert_before_ghost_state, ih (P ++ [x])]
    simp

/-- The list built from a sequence `S` has chain `S` and a matching `len`
counter. -/
theorem from_iter_eq (S : List T) : LinkedList.from_iter S = ⟨S, S.length⟩ := by
  have h0 : (LinkedList.new T).cursor_mut =
      (⟨⟨([] : List T), List.length ([] : List T)⟩, none, List.length ([] : List T)⟩ :
        CursorMut T) := rfl
  rw [LinkedList.from_iter, h0, from_iter_fold]
  simp

/-- The teardown loop of `Drop for LinkedList` (`while c.pop().is_some()`),
with explicit fuel: returns the sequence of released elements and the final
cursor state. -/
def popLoop : Nat → CursorMut T → List T × CursorMut T
  | 0, c => ([], c)
  | n + 1, c =>
    match c.pop with
    | (none, c') => ([], c')
    | (some x, c') =>
      let r := popLoop n c'
      (x :: r.1, r.2)

theorem popLoop_succ (n : Nat) (c : CursorMut T) :
    popLoop (n + 1) c =
      match c.pop with
      | (none, c') => ([], c')
      | (some x, c') =>
        let r := popLoop n c'
        (x :: r.1, r.2) := rfl

theorem pop_ghost_cons (x : T) (xs : List T) :
    (⟨⟨x :: xs, xs.length + 1⟩, none, 0⟩ : CursorMut T).pop =
      (some x, ⟨⟨xs, xs.length⟩, none, 0⟩) := by
  simp [pop, next, LinkedList.headIdx]

theorem pop_ghost_nil : (⟨⟨([] : List T), 0⟩, none, 0⟩ : CursorMut T).pop =
    (none, ⟨⟨[], 0⟩, none, 0⟩) := by
  simp [pop, next, LinkedList.headIdx]

/-- Repeatedly popping from a ghost-positioned cursor on a consistent list
releases exactly the chain, in forward order, and leaves the list empty. -/
theorem popLoop_ghost (S : List T) :
    popLoop (S.length + 1) (⟨⟨S, S.length⟩, none, 0⟩ : CursorMut T) =
      (S, ⟨⟨[], 0⟩, none, 0⟩) := by
  induction S with
  | nil => rw [List.length_nil, popLoop_succ, pop_ghost_nil]
  | cons x xs ih =>
    rw [List.length_cons, popLoop_succ, pop_ghost_cons]
    show (x :: (popLoop (xs.length + 1)
            (⟨⟨xs, xs.length⟩, none, 0⟩ : CursorMut T)).1,
          (popLoop (xs.length + 1) (⟨⟨xs, xs.length⟩, none, 0⟩ : CursorMut T)).2) = _
    rw [ih]

/-- Iterated `CursorMut.move_next`. -/
def moveNextN : Nat → CursorMut T → CursorMut T
  | 0, c => c
  | n + 1, c => (moveNextN n c).move_next

/-- After `k ≤ length` forward moves, a fresh cursor on a consistent list
sits at node `k - 1` (ghost for `k = 0`) with `current_len = k`. -/
theorem moveNextN_fresh (l : LinkedList T) (h : l.len = l.elems.length) :
    ∀ k, k ≤ l.elems.length →
    moveNextN k l.cursor_mut = ⟨l, if k = 0 then none else some (k - 1), k⟩ := by
  intro k
  induction k with
  | zero => intro _; rfl
  | succ n ih =>
    intro hk
    rw [moveNextN, ih (by omega)]
    by_cases h0 : n = 0
    · subst h0
      have hne : l.elems.isEmpty = false := by
        cases hl : l.elems with
        | nil => rw [hl] at hk; simp at hk
        | cons y ys => simp [hl]
      have hmod : (0 + 1) % (l.len + 1) = 1 := by
        rw [h]; exact Nat.mod_eq_of_lt (by omega)
      simp [move_next, next, LinkedList.headIdx, hne, hmod]
    · have hn1 : n - 1 + 1 = n := by omega
      have hlt : n < l.elems.length := by omega
      have hmod : (n + 1) % (l.len + 1) = n + 1 := by
        rw [h]; exact Nat.mod_eq_of_lt (by omega)
      simp [move_next, next, h0, hn1, hlt, hmod]

end CursorMut

/-! ## Read-only cursor traversal -/

namespace Cursor

variable {T : Type}

/-- Forward iteration as in the repository's tests and `Debug` impl: move
forward, read `current`, and stop at the first absent read. -/
def collectNext : Nat → Cursor T → List T
  | 0, _ => []
  | n + 1, c =>
    match (c.move_next).currentElem with
    | none => []
    | some x => x :: collectNext n c.move_next

/-- Backward iteration: move backward, read `current`, stop at the first
absent read. -/
def collectPrev : Nat → Cursor T → List T
  | 0, _ => []
  | n + 1, c =>
    match (c.move_prev).currentElem with
    | none => []
    | some x => x :: collectPrev n c.move_prev

/-- Iterated `Cursor.move_next`. -/
def cMoveNextN : Nat → Cursor T → Cursor T
  | 0, c => c
  | n + 1, c => (cMoveNextN n c).move_next

/-- Iterated `Cursor.move_prev`. -/
def cMovePrevN : Nat → Cursor T → Cursor T
  | 0, c => c
  | n + 1, c => (cMovePrevN n c).move_prev

theorem collectNext_succ (n : Nat) (c : Cursor T) :
    collectNext (n + 1) c =
      match (c.move_next).currentElem with
      | none => []
      | some x => x :: collectNext n c.move_next := rfl

theorem collectPrev_succ (n : Nat) (c : Cursor T) :
    collectPrev (n + 1) c =
      match (c.move_prev).currentElem with
      | none => []
      | some x => x :: collectPrev n c.move_prev := rfl

theorem collectNext_at (l : LinkedList T) :
    ∀ (n i : Nat), i ≤ l.elems.length →
      collectNext n ⟨l, if i = 0 then none else some (i - 1)⟩ =
        (l.elems.drop i).take n := by
  intro n
  induction n with
  | zero => intro i _; rfl
  | succ n ih =>
    intro i hi
    by_cases hlt : i < l.elems.length
    · have hstep : (Cursor.move_next ⟨l, if i = 0 then none else some (i - 1)⟩ : Cursor T) =
          ⟨l, some i⟩ := by
        by_cases h0 : i = 0
        · subst h0
          have hne : l.elems.isEmpty = false := by
            cases hl : l.elems with
            | nil => rw [hl] at hlt; simp at hlt
            | cons y ys => simp [hl]
          simp [Cursor.move_next, Cursor.next, LinkedList.headIdx, hne]
        · have h1 : i - 1 + 1 = i := by omega
          simp [Cursor.move_next, Cursor.next, h0, h1, hlt]
      have hcur : (⟨l, some i⟩ : Cursor T).currentElem = some (l.elems.get ⟨i, hlt⟩) := by
        simp [Cursor.currentElem, List.getElem?_eq_getElem hlt]
      rw [collectNext_succ, hstep, hcur]
      show l.elems.get ⟨i, hlt⟩ :: collectNext n ⟨l, some i⟩ = (l.elems.drop i).take (n + 1)
      have hidx : (⟨l, some i⟩ : Cursor T) =
          ⟨l, if i + 1 = 0 then none else some (i + 1 - 1)⟩ := by simp
      rw [hidx, ih (i + 1) (by omega), List.drop_eq_getElem_cons hlt, List.take_succ_cons]
      rfl
    · have hieq : i = l.elems.length := by omega
      have hstep : (Cursor.move_next ⟨l, if i = 0 then none else some (i - 1)⟩ : Cursor T) =
          ⟨l, none⟩ := by
        by_cases h0 : i = 0
        · subst h0
          have he : l.elems.isEmpty = true := by
            cases hl : l.elems with
            | nil => simp
            | cons y ys => rw [hl] at hieq; simp at hieq
          simp [Cursor.move_next, Cursor.next, LinkedList.headIdx, he]
        · have hcond : ¬ (i - 1 + 1 < l.elems.length) := by omega
          simp [Cursor.move_next, Cursor.next, h0, hcond]
      rw [collectNext_succ, hstep]
      simp [Cursor.currentElem, hieq, List.drop_length]

theorem collectPrev_at (l : LinkedList T) :
    ∀ (n j : Nat), j ≤ l.elems.length →
      collectPrev n ⟨l, if j < l.elems.length then some j else none⟩ =
        ((l.elems.take j).reverse).take n := by
  intro n
  induction n with
  | zero => intro j _; rfl
  | succ n ih =>
    intro j hj
    by_cases h0 : j = 0
    · subst h0
      have hstep : (Cursor.move_prev ⟨l, if 0 < l.elems.length then some 0 else none⟩ :
          Cursor T) = ⟨l, none⟩ := by
        by_cases hl : 0 < l.elems.length
        · simp [Cursor.move_prev, Cursor.prev, hl]
        · have he : l.elems.isEmpty = true := by
            cases hle : l.elems with
            | nil => simp
            | cons y ys => rw [hle] at hl; simp at hl
          simp [Cursor.move_prev, Cursor.prev, hl, LinkedList.tailIdx, he]
      rw [collectPrev_succ, hstep]
      simp [Cursor.currentElem]
    · have hj1 : j - 1 < l.elems.length := by omega
      have hstep : (Cursor.move_prev ⟨l, if j < l.elems.length then some j else none⟩ :
          Cursor T) = ⟨l, some (j - 1)⟩ := by
        by_cases hlt : j < l.elems.length
        · simp [Cursor.move_prev, Cursor.prev, hlt, h0]
        · have hjeq : j = l.elems.length := by omega
          have hne : l.elems.isEmpty = false := by
            cases hle : l.elems with
            | nil => rw [hle] at hj; simp at hj; omega
            | cons y ys => simp [hle]
          simp [Cursor.move_prev, Cursor.prev, hlt, LinkedList.tailIdx, hne, hjeq]
      have hcur : (⟨l, some (j - 1)⟩ : Cursor T).currentElem =
          some (l.elems.get ⟨j - 1, hj1⟩) := by
        simp [Cursor.currentElem, List.getElem?_eq_getElem hj1]
      rw [collectPrev_succ, hstep, hcur]
      show l.elems.get ⟨j - 1, hj1⟩ :: collectPrev n ⟨l, some (j - 1)⟩ =
        ((l.elems.take j).reverse).take (n + 1)
      have hidx : (⟨l, some (j - 1)⟩ : Cursor T) =
          ⟨l, if j - 1 < l.elems.length then some (j - 1) else none⟩ := by simp [hj1]
      rw [hidx, ih (j - 1) (by omega)]
      have htake : l.elems.take (j - 1 + 1) =
          l.elems.take (j - 1) ++ [l.elems.get ⟨j - 1, hj1⟩] := by
        rw [List.take_succ, List.getElem?_eq_getElem hj1]
        rfl
      have hj2 : j - 1 + 1 = j := by omega
      rw [hj2] at htake
      rw [htake, List.reverse_append]
      rfl

theorem cMoveNextN_ghost (l : LinkedList T) :
    ∀ k, k ≤ l.elems.length →
      cMoveNextN k l.cursor = ⟨l, if k = 0 then none else some (k - 1)⟩ := by
  intro k
  induction k with
  | zero => intro _; rfl
  | succ n ih =>
    intro hk
    rw [cMoveNextN, ih (by omega)]
    by_cases h0 : n = 0
    · subst h0
      have hne : l.elems.isEmpty = false := by
        cases hl : l.elems with
        | nil => rw [hl] at hk; simp at hk
        | cons y ys => simp [hl]
      simp [Cursor.move_next, Cursor.next, LinkedList.headIdx, hne]
    · have h1 : n - 1 + 1 = n := by omega
      have hlt : n < l.elems.length := by omega
      simp [Cursor.move_next, Cursor.next, h0, h1, hlt]

theorem cMoveNextN_past (l : LinkedList T) :
    (cMoveNextN (l.elems.length + 1) l.cursor).currentElem = none := by
  rw [cMoveNextN, cMoveNextN_ghost l l.elems.length le_rfl]
  by_cases h0 : l.elems.length = 0
  · have he : l.elems.isEmpty = true := by
      cases hl : l.elems with
      | nil => simp
      | cons y ys => rw [hl] at h0; simp at h0
    simp [Cursor.move_next, Cursor.next, LinkedList.headIdx, h0, he, Cursor.currentElem]
  · have h1 : l.elems.length - 1 + 1 = l.elems.length := by omega
    have hcond : ¬ (l.elems.length - 1 + 1 < l.elems.length) := by omega
    simp [Cursor.move_next, Cursor.next, h0, hcond, Cursor.currentElem]

theorem cMovePrevN_ghost (l : LinkedList T) :
    ∀ k, k ≤ l.elems.length →
      cMovePrevN k l.cursor = ⟨l, if k = 0 then none else some (l.elems.length - k)⟩ := by
  intro k
  induction k with
  | zero => intro _; rfl
  | succ n ih =>
    intro hk
    rw [cMovePrevN, ih (by omega)]
    by_cases h0 : n = 0
    · subst h0
      have hne : l.elems.isEmpty = false := by
        cases hl : l.elems with
        | nil => rw [hl] at hk; simp at hk
        | cons y ys => simp [hl]
      simp [Cursor.move_prev, Cursor.prev, LinkedList.tailIdx, hne]
    · have hne0 : ¬ (l.elems.length - n = 0) := by omega
      have heq : l.elems.length - n - 1 = l.elems.length - (n + 1) := by omega
      simp [Cursor.move_prev, Cursor.prev, h0, hne0, heq]

theorem cMovePrevN_past (l : LinkedList T) :
    (cMovePrevN (l.elems.length + 1) l.cursor).currentElem = none := by
  rw [cMovePrevN, cMovePrevN_ghost l l.elems.length le_rfl]
  by_cases h0 : l.elems.length = 0
  · have he : l.elems.isEmpty = true := by
      cases hl : l.elems with
      | nil => simp
      | cons y ys => rw [hl] at h0; simp at h0
    simp [Cursor.move_prev, Cursor.prev, LinkedList.tailIdx, h0, he, Cursor.currentElem]
  · have hz : l.elems.length - l.elems.length = 0 := by omega
    simp [Cursor.move_prev, Cursor.prev, h0, hz, Cursor.currentElem]

end Cursor

/-! ## Characterization of split_before -/

namespace CursorMut

variable {T : Type}

theorem split_before_ghost {c : CursorMut T} (hc : c.current = none) :
    c.split_before = (LinkedList.new T, c.list) := by
  simp [split_before, hc]

theorem split_before_head {c : CursorMut T} (hc : c.current = some 0) :
    c.split_before = (LinkedList.new T, c.list) := by
  simp [split_before, hc]

/-- Characterization of `split_before` on a consistent cursor positioned at
node `i + 1`: the retained list is the strictly-before part, the returned
list is the at-and-after part. -/
theorem split_before_at_node {c : CursorMut T} (h : goodCursor c) (i : Nat)
    (hc : c.current = some (i + 1)) :
    c.split_before = (⟨c.list.elems.take (i + 1), i + 1⟩,
                      ⟨c.list.elems.drop (i + 1), c.list.elems.length - (i + 1)⟩) := by
  obtain ⟨⟨elems, len⟩, cur, clen⟩ := c
  obtain ⟨h1, h2, h3⟩ := h
  simp only at h1 hc ⊢
  subst hc
  have hiv : i + 1 < elems.length := h3 (i + 1) rfl
  have hcl : clen = i + 2 := by simpa [cpos] using h2
  subst hcl h1
  simp only [split_before, split_at]
  rw [if_neg (by omega : ¬ (i + 1 = 0))]
  have e2 : i + 1 - 1 = i := by omega
  rw [e2, if_pos hiv]
  have hlen : elems.length - (elems.length - (i + 2 - 1)) = i + 1 := by omega
  have hlen2 : elems.length - (i + 2 - 1) = elems.length - (i + 1) := by omega
  rw [hlen, hlen2]

end CursorMut

/-! ## Claims -/

/-- C1: for every list and every cursor position reached by cursor moves,
split() partitions the list into the elements at-and-before the cursor
(retained in place, with the cursor's node as tail and length equal to the
number of retained elements) and the elements strictly after (returned,
with the original tail); at ghost the entire list is returned and the
original becomes empty. -/
theorem claim_C1_split (T : Type) (c : CursorMut T) (h : CursorMut.MovesReached c) :
    (c.current = none → c.split = (LinkedList.new T, c.list)) ∧
    (∀ i, c.current = some i →
      c.split = (⟨c.list.elems.take (i + 1), i + 1⟩,
                 ⟨c.list.elems.drop (i + 1), c.list.elems.length - (i + 1)⟩)) :=
  ⟨fun hc => CursorMut.split_at_ghost hc,
   fun i hc => CursorMut.split_at_node (CursorMut.reached_good h) i hc⟩

/-- The cursor of the claim C1 example: list built from 0..10, moved to the
node holding value 3. -/
def exC1 : CursorMut Nat :=
  ((((LinkedList.from_iter
    [0, 1, 2, 3, 4, 5, 6, 7, 8, 9]).cursor_mut).move_next).move_next).move_next.move_next

/-- Witness for C1, including the 0..10 instance of the claim: the retained
list is [0,1,2,3] and the returned list is [4,5,6,7,8,9]. -/
theorem claim_C1_split_witness :
    exC1.current = some 3 ∧
    exC1.split = (⟨[0, 1, 2, 3], 4⟩, ⟨[4, 5, 6, 7, 8, 9], 6⟩) := by
  have hr : CursorMut.MovesReached exC1 :=
    .step_next (.step_next (.step_next (.step_next (.base _ (by decide)))))
  refine ⟨by decide, ?_⟩
  have h := (claim_C1_split Nat exC1 hr).2 3 (by decide)
  rw [h]
  decide

/-- C2 counterexample: on the list [0,1,2] with the cursor at the node
holding value 1, split_before returns [1,2] (the at-and-after part) as the
new list and retains [0]; the claim says the returned list is the
strictly-before part [0] and the retained list is [1,2], which is false. -/
theorem claim_C2_counterexample :
    ((((LinkedList.from_iter [0, 1, 2]).cursor_mut).move_next.move_next).split_before).2.elems
        = [1, 2] ∧
    ((((LinkedList.from_iter [0, 1, 2]).cursor_mut).move_next.move_next).split_before).1.elems
        = [0] ∧
    ¬ (((((LinkedList.from_iter [0, 1, 2]).cursor_mut).move_next.move_next).split_before).2.elems
          = [0] ∧
       ((((LinkedList.from_iter [0, 1, 2]).cursor_mut).move_next.move_next).split_before).1.elems
          = [1, 2]) := by
  decide

/-- C2 amended: for every list and cursor position reached by moves,
split_before() retains the elements strictly before the cursor and returns
the elements at-and-after the cursor as the new list; at ghost it behaves
like split() (whole list returned, original emptied); when the cursor's
node has no previous element the retained list is empty and the returned
list is the full original. -/
theorem claim_C2_split_before (T : Type) (c : CursorMut T) (h : CursorMut.MovesReached c) :
    (c.current = none → c.split_before = (LinkedList.new T, c.list)) ∧
    (c.current = some 0 → c.split_before = (LinkedList.new T, c.list)) ∧
    (∀ i, c.current = some (i + 1) →
      c.split_before = (⟨c.list.elems.take (i + 1), i + 1⟩,
                        ⟨c.list.elems.drop (i + 1), c.list.elems.length - (i + 1)⟩)) :=
  ⟨fun hc => CursorMut.split_before_ghost hc,
   fun hc => CursorMut.split_before_head hc,
   fun i hc => CursorMut.split_before_at_node (CursorMut.reached_good h) i hc⟩

/-- Witness for the amended C2 at a general interior position. -/
theorem claim_C2_split_before_witness :
    ((((LinkedList.from_iter [0, 1, 2, 3]).cursor_mut).move_next.move_next.move_next).current
        = some 2) ∧
    ((((LinkedList.from_iter [0, 1, 2, 3]).cursor_mut).move_next.move_next.move_next).split_before
        = (⟨[0, 1], 2⟩, ⟨[2, 3], 2⟩)) := by
  have hr : CursorMut.MovesReached
      ((((LinkedList.from_iter [0, 1, 2, 3]).cursor_mut).move_next.move_next).move_next) :=
    .step_next (.step_next (.step_next (.base _ (by decide))))
  refine ⟨by decide, ?_⟩
  have h := (claim_C2_split_before Nat _ hr).2.2 1 (by decide)
  rw [h]
  decide

/-- C3: split_before with the cursor at ghost returns the entire original
list and leaves the source empty; with the cursor at the head element the
retained list is empty and the returned list is the full original. -/
theorem claim_C3_split_before_ends (T : Type) (l : LinkedList T) :
    (l.cursor_mut).split_before = (LinkedList.new T, l) ∧
    (l.elems ≠ [] → ((l.cursor_mut).move_next).split_before = (LinkedList.new T, l)) := by
  constructor
  · exact CursorMut.split_before_ghost rfl
  · intro hne
    have hcur : ((l.cursor_mut).move_next).current = some 0 := by
      cases hl : l.elems with
      | nil => exact absurd hl hne
      | cons x xs =>
        simp [LinkedList.cursor_mut, CursorMut.move_next, CursorMut.next,
          LinkedList.headIdx, hl]
    exact CursorMut.split_before_head hcur

/-- Witness for C3 on the list [0,1]. -/
theorem claim_C3_split_before_ends_witness :
    (((⟨[0, 1], 2⟩ : LinkedList Nat).cursor_mut).split_before
        = (LinkedList.new Nat, ⟨[0, 1], 2⟩)) ∧
    ((⟨[0, 1], 2⟩ : LinkedList Nat).elems ≠ []) ∧
    ((((⟨[0, 1], 2⟩ : LinkedList Nat).cursor_mut).move_next).split_before
        = (LinkedList.new Nat, ⟨[0, 1], 2⟩)) :=
  ⟨(claim_C3_split_before_ends Nat ⟨[0, 1], 2⟩).1, by decide,
   (claim_C3_split_before_ends Nat ⟨[0, 1], 2⟩).2 (by decide)⟩

/-- C4 is violated by the code: starting from the list built from [0,1],
a fresh CursorMut (ghost, offset 0) executing insert_before(2) appends the
element after the tail and unconditionally increments the offset, leaving
the cursor at the ghost position with tracked offset 1 — but the ghost
position has 0 elements strictly before it (reading the ghost as before
the head; reading it as after the tail would give count = 3).  The
resulting state therefore fails the offset-consistent-with-position
invariant (`goodCursor`). -/
theorem claim_C4_offset_bug :
    (((LinkedList.from_iter [0, 1]).cursor_mut).insert_before 2).current = none ∧
    (((LinkedList.from_iter [0, 1]).cursor_mut).insert_before 2).list.elems = [0, 1, 2] ∧
    (((LinkedList.from_iter [0, 1]).cursor_mut).insert_before 2).list.len = 3 ∧
    (((LinkedList.from_iter [0, 1]).cursor_mut).insert_before 2).current_len = 1 ∧
    ¬ CursorMut.goodCursor (((LinkedList.from_iter [0, 1]).cursor_mut).insert_before 2) := by
  refine ⟨by decide, by decide, by decide, by decide, ?_⟩
  intro hg
  exact absurd hg.2.1 (by decide)

/-- C5 is violated by the code: from an empty list, the public sequence
cursor_mut; insert_before(0); insert_before(1); move_next; split()
produces a retained list whose length counter is 0 while one node ([0]) is
reachable from its head, and a returned list whose length counter is 2
while one node ([1]) is reachable from its head.  (The root cause is the
offset desynchronization of C4: split trusts `current_len` to set the two
length counters.) -/
theorem claim_C5_len_bug :
    (((((LinkedList.new Nat).cursor_mut).insert_before 0).insert_before 1).move_next).split
      = (⟨[0], 0⟩, ⟨[1], 2⟩) ∧
    ((⟨[0], 0⟩ : LinkedList Nat).len ≠ (⟨[0], 0⟩ : LinkedList Nat).elems.length) ∧
    ((⟨[1], 2⟩ : LinkedList Nat).len ≠ (⟨[1], 2⟩ : LinkedList Nat).elems.length) := by
  decide

/-- C10: splicing an empty source list (absent head and tail pointers) via
insert_list or insert_list_before is a complete no-op: the receiving list
and the cursor state are unchanged. -/
theorem claim_C10_empty_splice (T : Type) (c : CursorMut T) (other : LinkedList T)
    (h : other.elems = []) :
    c.insert_list other = c ∧ c.insert_list_before other = c := by
  obtain ⟨oelems, olen⟩ := other
  simp only at h
  subst h
  exact ⟨rfl, rfl⟩

/-- Witness for C10: splicing a source with empty chain (even with a stale
nonzero length counter) into a list [1,2] with the cursor at its head is a
no-op for both operations. -/
theorem claim_C10_empty_splice_witness :
    ((⟨[], 5⟩ : LinkedList Nat).elems = []) ∧
    ((⟨⟨[1, 2], 2⟩, some 0, 1⟩ : CursorMut Nat).insert_list ⟨[], 5⟩
        = ⟨⟨[1, 2], 2⟩, some 0, 1⟩) ∧
    ((⟨⟨[1, 2], 2⟩, some 0, 1⟩ : CursorMut Nat).insert_list_before ⟨[], 5⟩
        = ⟨⟨[1, 2], 2⟩, some 0, 1⟩) := by
  have h := claim_C10_empty_splice Nat (⟨⟨[1, 2], 2⟩, some 0, 1⟩ : CursorMut Nat) ⟨[], 5⟩ rfl
  exact ⟨rfl, h.1, h.2⟩

/-! ## Remaining claims -/

theorem perm_splice {T : Type} (xs ys : List T) (p : Nat) :
    ((xs.take p ++ ys) ++ xs.drop p).Perm (xs ++ ys) := by
  have h1 : (xs.take p ++ ys) ++ xs.drop p = xs.take p ++ (ys ++ xs.drop p) :=
    List.append_assoc _ _ _
  have h2 : (xs.take p ++ (xs.drop p ++ ys)) = (xs.take p ++ xs.drop p) ++ ys :=
    (List.append_assoc _ _ _).symm
  rw [h1]
  refine (List.Perm.append_left _ List.perm_append_comm).trans ?_
  rw [h2, List.take_append_drop]

theorem CursorMut.next_some_lt {T : Type} {c : CursorMut T} {j : Nat}
    (h : c.next = some j) : j < c.list.elems.length := by
  cases hc : c.current with
  | none =>
    simp only [CursorMut.next, hc, LinkedList.headIdx] at h
    by_cases he : c.list.elems.isEmpty
    · simp [he] at h
    · simp only [he, Bool.false_eq_true, if_false, Option.some.injEq] at h
      subst h
      cases hl : c.list.elems with
      | nil => rw [hl] at he; exact absurd rfl he
      | cons y ys => simp
  | some i =>
    simp only [CursorMut.next, hc] at h
    by_cases hlt : i + 1 < c.list.elems.length
    · simp only [hlt, if_true, Option.some.injEq] at h
      omega
    · simp [hlt] at h

/-- C6: node ownership.  Teardown (the Drop loop: repeatedly pop from a
ghost cursor) releases each node of a consistent list exactly once — the
sequence of released elements is exactly the chain, in order — and leaves
the list empty; splicing a non-empty source list via insert_list or
insert_list_before transfers every node of the source into the receiving
list without releasing any: the receiving chain afterwards is a
permutation of the receiver's chain plus the source's chain. -/
theorem claim_C6_ownership (T : Type) (l : LinkedList T) (h : l.len = l.elems.length)
    (c : CursorMut T) (other : LinkedList T) :
    (CursorMut.popLoop (l.len + 1) l.cursor_mut).1 = l.elems ∧
    (CursorMut.popLoop (l.len + 1) l.cursor_mut).2.list = LinkedList.new T ∧
    (other.elems ≠ [] →
      ((c.insert_list other).list.elems).Perm (c.list.elems ++ other.elems) ∧
      ((c.insert_list_before other).list.elems).Perm (c.list.elems ++ other.elems)) := by
  obtain ⟨elems, len⟩ := l
  simp only at h
  subst h
  have hp := CursorMut.popLoop_ghost (T := T) elems
  refine ⟨?_, ?_, ?_⟩
  · show (CursorMut.popLoop (elems.length + 1) ⟨⟨elems, elems.length⟩, none, 0⟩).1 = elems
    rw [hp]
  · show (CursorMut.popLoop (elems.length + 1) ⟨⟨elems, elems.length⟩, none, 0⟩).2.list
      = LinkedList.new T
    rw [hp]
    rfl
  · intro hne
    obtain ⟨oelems, olen⟩ := other
    simp only at hne
    cases ho : oelems with
    | nil => exact absurd ho hne
    | cons y ys =>
      subst ho
      constructor
      · show ((c.list.elems.take c.cpos ++ (y :: ys)) ++ c.list.elems.drop c.cpos).Perm
          (c.list.elems ++ (y :: ys))
        exact perm_splice _ _ _
      · cases hcc : c.current with
        | none =>
          have hshow : (c.insert_list_before ⟨y :: ys, olen⟩).list.elems =
              c.list.elems ++ (y :: ys) := by
            simp only [CursorMut.insert_list_before, hcc]
          rw [hshow]
        | some i =>
          have hshow : (c.insert_list_before ⟨y :: ys, olen⟩).list.elems =
              (c.list.elems.take i ++ (y :: ys)) ++ c.list.elems.drop i := by
            simp only [CursorMut.insert_list_before, hcc]
          rw [hshow]
          exact perm_splice _ _ _

/-- Witness for C6 on the list [5,6] and a splice of [9] into [1,2]. -/
theorem claim_C6_ownership_witness :
    ((⟨[5, 6], 2⟩ : LinkedList Nat).len = (⟨[5, 6], 2⟩ : LinkedList Nat).elems.length) ∧
    ((⟨[9], 1⟩ : LinkedList Nat).elems ≠ []) ∧
    (CursorMut.popLoop ((⟨[5, 6], 2⟩ : LinkedList Nat).len + 1)
        (⟨[5, 6], 2⟩ : LinkedList Nat).cursor_mut).1 = [5, 6] ∧
    ((⟨⟨[1, 2], 2⟩, none, 0⟩ : CursorMut Nat).insert_list ⟨[9], 1⟩).list.elems.Perm
        ([1, 2] ++ [9]) := by
  have h := claim_C6_ownership Nat ⟨[5, 6], 2⟩ rfl (⟨⟨[1, 2], 2⟩, none, 0⟩ : CursorMut Nat)
    ⟨[9], 1⟩
  exact ⟨rfl, by decide, h.1, (h.2.2 (by decide)).1⟩

/-- C7: for every finite sequence S, the list built from S (repeated
insert_before on a ghost CursorMut) traversed forward by a read-only
Cursor from ghost (repeated move_next reading current) yields exactly S in
order, traversed backward from ghost yields S reversed, and in both
directions current() is absent after the last element. -/
theorem claim_C7_traversal (T : Type) (S : List T) :
    Cursor.collectNext S.length (LinkedList.from_iter S).cursor = S ∧
    (Cursor.cMoveNextN (S.length + 1) (LinkedList.from_iter S).cursor).currentElem = none ∧
    Cursor.collectPrev S.length (LinkedList.from_iter S).cursor = S.reverse ∧
    (Cursor.cMovePrevN (S.length + 1) (LinkedList.from_iter S).cursor).currentElem = none := by
  rw [CursorMut.from_iter_eq]
  refine ⟨?_, ?_, ?_, ?_⟩
  · have h := Cursor.collectNext_at (⟨S, S.length⟩ : LinkedList T) S.length 0 (Nat.zero_le _)
    rw [if_pos rfl] at h
    show Cursor.collectNext S.length ⟨⟨S, S.length⟩, none⟩ = S
    rw [h]
    show (S.drop 0).take S.length = S
    rw [List.drop_zero, List.take_length]
  · have h := Cursor.cMoveNextN_past (⟨S, S.length⟩ : LinkedList T)
    exact h
  · have h := Cursor.collectPrev_at (⟨S, S.length⟩ : LinkedList T) S.length
      ((⟨S, S.length⟩ : LinkedList T).elems.length) le_rfl
    rw [if_neg (lt_irrefl _)] at h
    show Cursor.collectPrev S.length ⟨⟨S, S.length⟩, none⟩ = S.reverse
    rw [h]
    show (S.take S.length).reverse.take S.length = S.reverse
    rw [List.take_length]
    have hlen : S.reverse.length = S.length := List.length_reverse S
    rw [← hlen, List.take_length]
  · have h := Cursor.cMovePrevN_past (⟨S, S.length⟩ : LinkedList T)
    exact h

/-- C8: pop() removes and returns the element immediately after the cursor
and returns an absent result exactly when the cursor has no next element;
repeatedly popping on a ghost-positioned cursor over the list built from S
returns the elements of S in forward order, then an absent result, leaving
the list empty. -/
theorem claim_C8_pop (T : Type) (S : List T) (c : CursorMut T) :
    (CursorMut.popLoop (S.length + 1) (LinkedList.from_iter S).cursor_mut).1 = S ∧
    (CursorMut.popLoop (S.length + 1) (LinkedList.from_iter S).cursor_mut).2.list.elems
      = [] ∧
    ((c.pop).1 = none ↔ c.next = none) ∧
    (∀ j, c.next = some j → ∃ hj : j < c.list.elems.length,
      (c.pop).1 = some (c.list.elems.get ⟨j, hj⟩) ∧
      (c.pop).2.list.elems = c.list.elems.eraseIdx j) := by
  rw [CursorMut.from_iter_eq]
  have hp := CursorMut.popLoop_ghost (T := T) S
  refine ⟨?_, ?_, ?_, ?_⟩
  · show (CursorMut.popLoop (S.length + 1) ⟨⟨S, S.length⟩, none, 0⟩).1 = S
    rw [hp]
  · show (CursorMut.popLoop (S.length + 1) ⟨⟨S, S.length⟩, none, 0⟩).2.list.elems = []
    rw [hp]
  · cases hn : c.next with
    | none =>
      have hpop : c.pop = (none, c) := by simp [CursorMut.pop, hn]
      simp [hpop]
    | some j =>
      have hlt : j < c.list.elems.length := CursorMut.next_some_lt hn
      have hpop : (c.pop).1 = c.list.elems[j]? := by simp [CursorMut.pop, hn]
      rw [hpop, List.getElem?_eq_getElem hlt]
      simp
  · intro j hj
    have hlt : j < c.list.elems.length := CursorMut.next_some_lt hj
    refine ⟨hlt, ?_, ?_⟩
    · have hpop : (c.pop).1 = c.list.elems[j]? := by simp [CursorMut.pop, hj]
      rw [hpop, List.getElem?_eq_getElem hlt]
      rfl
    · simp [CursorMut.pop, hj]

/-- Witness for C8: popping through the list built from [4,5], and a single
pop on a cursor at the head of [7,8]. -/
theorem claim_C8_pop_witness :
    (CursorMut.popLoop (2 + 1) (LinkedList.from_iter [4, 5]).cursor_mut).1 = [4, 5] ∧
    ((⟨⟨[7, 8], 2⟩, some 0, 1⟩ : CursorMut Nat).next = some 1) ∧
    ((⟨⟨[7, 8], 2⟩, some 0, 1⟩ : CursorMut Nat).pop).1 = some 8 ∧
    ((⟨⟨[7, 8], 2⟩, some 0, 1⟩ : CursorMut Nat).pop).2.list.elems = [7] := by
  have h := claim_C8_pop Nat [4, 5] (⟨⟨[7, 8], 2⟩, some 0, 1⟩ : CursorMut Nat)
  obtain ⟨hj, h2, h3⟩ := h.2.2.2 1 (by decide)
  exact ⟨h.1, by decide, by rw [h2]; rfl, h3⟩

/-- C9: for every list and cut position reached by cursor moves, splitting
with split() and splicing the returned list back with insert_list, with a
fresh cursor moved to the original cut point, reconstructs a list whose
forward-order elements equal those of the original. -/
theorem claim_C9_split_splice (T : Type) (c : CursorMut T)
    (h : CursorMut.MovesReached c) :
    ((CursorMut.moveNextN c.cpos ((c.split).1).cursor_mut).insert_list
        (c.split).2).list.elems = c.list.elems := by
  obtain ⟨h1, h2, h3⟩ := CursorMut.reached_good h
  cases hc : c.current with
  | none =>
    rw [CursorMut.split_at_ghost hc]
    have hp : c.cpos = 0 := by simp [CursorMut.cpos, hc]
    rw [hp]
    show ((LinkedList.new T).cursor_mut.insert_list c.list).list.elems = c.list.elems
    cases hl : c.list.elems with
    | nil => simp [CursorMut.insert_list, hl, LinkedList.new, LinkedList.cursor_mut]
    | cons y ys =>
      simp [CursorMut.insert_list, hl, LinkedList.new, LinkedList.cursor_mut,
        CursorMut.cpos]
  | some i =>
    have hiv : i < c.list.elems.length := h3 i hc
    rw [CursorMut.split_at_node ⟨h1, h2, h3⟩ i hc]
    have hp : c.cpos = i + 1 := by simp [CursorMut.cpos, hc]
    rw [hp]
    show ((CursorMut.moveNextN (i + 1)
        ((⟨c.list.elems.take (i + 1), i + 1⟩ : LinkedList T).cursor_mut)).insert_list
        (⟨c.list.elems.drop (i + 1), c.list.elems.length - (i + 1)⟩ :
          LinkedList T)).list.elems = c.list.elems
    have hwf : (⟨c.list.elems.take (i + 1), i + 1⟩ : LinkedList T).len =
        (⟨c.list.elems.take (i + 1), i + 1⟩ : LinkedList T).elems.length := by
      simp only [List.length_take]
      omega
    have hmv := CursorMut.moveNextN_fresh (⟨c.list.elems.take (i + 1), i + 1⟩ : LinkedList T)
      hwf (i + 1) (by simp only [List.length_take]; omega)
    rw [hmv, if_neg (by omega : ¬ (i + 1 = 0)), Nat.add_sub_cancel]
    cases hd : c.list.elems.drop (i + 1) with
    | nil =>
      show c.list.elems.take (i + 1) = c.list.elems
      have hle : c.list.elems.length ≤ i + 1 := by
        have hld := congrArg List.length hd
        simp only [List.length_drop, List.length_nil] at hld
        omega
      exact List.take_of_length_le hle
    | cons y ys =>
      show ((c.list.elems.take (i + 1)).take (i + 1) ++ (y :: ys)) ++
          (c.list.elems.take (i + 1)).drop (i + 1) = c.list.elems
      have hre1 : (c.list.elems.take (i + 1)).take (i + 1) = c.list.elems.take (i + 1) :=
        List.take_of_length_le (by rw [List.length_take]; omega)
      have hre2 : (c.list.elems.take (i + 1)).drop (i + 1) = [] :=
        List.drop_eq_nil_of_le (by rw [List.length_take]; omega)
      rw [hre1, hre2, List.append_nil, ← hd, List.take_append_drop]

/-- Witness for C9: the list built from [0,1,2,3] cut after value 1. -/
theorem claim_C9_split_splice_witness :
    CursorMut.MovesReached
      (((LinkedList.from_iter [0, 1, 2, 3]).cursor_mut).move_next.move_next) ∧
    ((CursorMut.moveNextN
        ((((LinkedList.from_iter [0, 1, 2, 3]).cursor_mut).move_next.move_next).cpos)
        (((((LinkedList.from_iter [0, 1, 2, 3]).cursor_mut).move_next.move_next).split).1).cursor_mut).insert_list
      ((((LinkedList.from_iter [0, 1, 2, 3]).cursor_mut).move_next.move_next).split).2).list.elems
      = [0, 1, 2, 3] := by
  have hr : CursorMut.MovesReached
      (((LinkedList.from_iter [0, 1, 2, 3]).cursor_mut).move_next.move_next) :=
    .step_next (.step_next (.base _ (by decide)))
  refine ⟨hr, ?_⟩
  rw [claim_C9_split_splice Nat _ hr]
  decide
